import Mathlib

/-!
A verification development for the metal-price-predictor frontend
(src/frontend/src/App.jsx, src/frontend/src/api.js) and, modelled from the
specification, the ledger engine it talks to.  JavaScript strings are Lean
`String`s, JSON numbers are `ℚ`, and a JS value that may be `null`/`undefined`
is an `Option`.
-/

set_option autoImplicit false

namespace MetalPrice

/-! ### JS string and number helpers -/

/-- The `METALS` constant of App.jsx. -/
def METALS : List String := ["silver", "gold", "platinum"]

/-- The `GOLD_PURITY` constant of App.jsx. -/
def GOLD_PURITY : List String := ["18K", "22K", "24K"]

/-- The `UNITS` constant of App.jsx. -/
def UNITS : List String := ["1g", "10g", "1kg"]

/-- JS truthiness of an optional string: `null`/`undefined` and `""` are falsy. -/
def strTruthy : Option String → Bool
  | none => false
  | some s => s ≠ ""

/-- JS truthiness of an optional number: `null`/`undefined` and `0` are falsy. -/
def numTruthy : Option ℚ → Bool
  | none => false
  | some q => q ≠ 0

/-- JS `x || dflt` on an optional string appearing in display position. -/
def jsOr (o : Option String) (dflt : String) : String :=
  match o with
  | some s => if s = "" then dflt else s
  | none => dflt

/-- JS `x || null` on an optional string (`current.purity || null` in App.jsx). -/
def jsOrNull (o : Option String) : Option String :=
  if strTruthy o then o else none

/-- ASCII `toUpperCase()`. -/
def jsUpper (s : String) : String := String.mk (s.toList.map Char.toUpper)

/-- ASCII `toLowerCase()`. -/
def jsLower (s : String) : String := String.mk (s.toList.map Char.toLower)

/-- Whitespace trimming on a character list, as JS `trim()` does on both ends. -/
def trimChars (cs : List Char) : List Char :=
  ((cs.dropWhile Char.isWhitespace).reverse.dropWhile Char.isWhitespace).reverse

/-- JS `s.trim()`. -/
def jsTrim (s : String) : String := String.mk (trimChars s.toList)

/-- Numeric value of a digit list (most significant first). -/
def natOfDigits (cs : List Char) : Nat :=
  cs.foldl (fun a c => a * 10 + (c.toNat - 48)) 0

/-- Parse a non-empty all-digit character list. -/
def parseNat (cs : List Char) : Option Nat :=
  if cs ≠ [] && cs.all Char.isDigit then some (natOfDigits cs) else none

/-- Models JS `Number(string)` on the decimal fragment this UI produces: surrounding
whitespace is dropped, the empty string is `0`, an optional sign precedes digits with
at most one decimal point.  `none` stands for the NaN/non-finite outcomes (any other
string, including exponent forms, which this model does not distinguish from NaN);
those fail `Number.isFinite`. -/
def jsNumber (s : String) : Option ℚ :=
  let cs := trimChars s.toList
  match cs with
  | [] => some 0
  | _ =>
    let body : List Char :=
      match cs with
      | '+' :: r => r
      | '-' :: r => r
      | r => r
    let neg : Bool := match cs with | '-' :: _ => true | _ => false
    let ip := body.takeWhile (fun c => c ≠ '.')
    let mag : Option ℚ :=
      match body.dropWhile (fun c => c ≠ '.') with
      | [] =>
        match parseNat ip with
        | some n => some (n : ℚ)
        | none => none
      | '.' :: frac =>
        if (ip ++ frac) ≠ [] && ip.all Char.isDigit && frac.all Char.isDigit then
          some ((natOfDigits ip : ℚ) + (natOfDigits frac : ℚ) / (10 ^ frac.length : ℚ))
        else none
      | _ => none
    match mag with
    | some m => some (if neg then -m else m)
    | none => none

/-- Gregorian leap year. -/
def isLeap (y : Nat) : Bool :=
  (y % 4 == 0 && y % 100 != 0) || y % 400 == 0

/-- Length of a month in the Gregorian calendar. -/
def daysInMonth (y m : Nat) : Nat :=
  if m = 2 then (if isLeap y then 29 else 28)
  else if m = 4 ∨ m = 6 ∨ m = 9 ∨ m = 11 then 30
  else 31

/-- Split a character list at every occurrence of `sep`. -/
def splitOnChar (sep : Char) : List Char → List (List Char)
  | [] => [[]]
  | c :: rest =>
    if c = sep then [] :: splitOnChar sep rest
    else
      match splitOnChar sep rest with
      | [] => [[c]]
      | g :: gs => (c :: g) :: gs

/-- Modelled from the spec (§3, §4.3): "`date` parses as a calendar date" in ISO
`YYYY-MM-DD` form — four digits, two digits in 1..12, two digits in 1..(length of
that month).  The repository's backend, which owns this validation, is not among
the source files. -/
def parsesAsCalendarDate (s : String) : Bool :=
  match splitOnChar '-' s.toList with
  | [ys, ms, ds] =>
    match parseNat ys, parseNat ms, parseNat ds with
    | some y, some m, some d =>
      decide (ys.length = 4) && decide (ms.length = 2) && decide (ds.length = 2) &&
        decide (1 ≤ m) && decide (m ≤ 12) && decide (1 ≤ d) && decide (d ≤ daysInMonth y m)
    | _, _, _ => false
  | _ => false

/-! ### GET /chain blocks as the frontend reads them -/

/-- The `data` object of one block in the `GET /chain` response, as App.jsx reads it
(`b.data.date`, `b.data.metal`, `b.data.purity`, `b.data.unit`, `b.data.price`).
Every field is optional: the genesis block's data carries none of them. -/
structure BlockData where
  date : Option String
  metal : Option String
  purity : Option String
  unit : Option String
  price : Option ℚ
deriving DecidableEq

/-- One block object of a `GET /chain` response.  App.jsx reads only `index`,
`data.*` and `hash`; the spec's §6 response shape instead lists `date`..`price` as
top-level optional fields of the block, so the model carries both the top-level
fields and the nested `data` object in order to compare the two readings. -/
structure ChainBlock where
  index : Nat
  date : Option String
  metal : Option String
  purity : Option String
  unit : Option String
  price : Option ℚ
  data : BlockData
  hash : String
deriving DecidableEq

/-- One rendered row of the blockchain table (App.jsx, the `<tr>` body):
`date` is `{b.data.date}` (React shows a missing field as empty text),
`metal` is `String(b.data.metal || '').toUpperCase()`,
`purity` is `{b.data.purity || '-'}`, `unit` is `{b.data.unit}`,
`price` is `{b.data.price}`, `hashText` is `{b.hash.slice(0, 16)}...`. -/
structure Row where
  idx : Nat
  date : String
  metal : String
  purity : String
  unit : String
  price : Option ℚ
  hashText : String
deriving DecidableEq

/-- The row App.jsx builds for one block. -/
def rowOf (b : ChainBlock) : Row :=
  { idx := b.index
    date := b.data.date.getD ""
    metal := jsUpper (jsOr b.data.metal "")
    purity := jsOr b.data.purity "-"
    unit := b.data.unit.getD ""
    price := b.data.price
    hashText := String.mk (b.hash.toList.take 16) ++ "..." }

/-- The blockchain table body App.jsx renders:
`chain.blocks.filter((b) => b.data.price).map((b) => <tr>...)`. -/
def renderedRows (blocks : List ChainBlock) : List Row :=
  (blocks.filter (fun b => numTruthy b.data.price)).map rowOf

/-! ### The add-price form and its POST /prices body -/

/-- Add-price form state (the `form` state object of App.jsx); every control holds a
string, `price` being the raw text of the number input. -/
structure AddForm where
  date : String
  metal : String
  purity : String
  unit : String
  price : String
deriving DecidableEq

/-- Body of a POST /prices or PUT /prices/{index} request as the frontend builds it.
`metal` is optional because `handleUpdate` copies `current.metal`, which is absent on
a payload-less block; `price` is `none` when `Number(...)` produced NaN. -/
structure PriceBody where
  date : String
  metal : Option String
  purity : Option String
  unit : String
  price : Option ℚ
deriving DecidableEq

/-- The POST /prices body `handleSubmit` builds:
`{ date, metal, purity: metal === 'gold' ? form.purity : null, unit, price: Number(price) }`. -/
def submitBody (f : AddForm) : PriceBody :=
  { date := f.date
    metal := some f.metal
    purity := if f.metal = "gold" then some f.purity else none
    unit := f.unit
    price := jsNumber f.price }

/-- Native HTML constraint validation of the add form: the `date` and `price` inputs
carry `required`, and the purity select carries `required={form.metal === 'gold'}`
with a placeholder option of value `""`, so the browser fires the form's submit
event (and hence `handleSubmit`) only when this holds. -/
def canSubmit (f : AddForm) : Bool :=
  f.date ≠ "" && f.price ≠ "" && (f.metal ≠ "gold" || f.purity ≠ "")

/-- The metal select's onChange in the add form:
`{ ...p, metal: v, purity: v === 'gold' ? p.purity || '24K' : '' }`. -/
def formMetalChange (f : AddForm) (v : String) : AddForm :=
  { f with metal := v, purity := if v = "gold" then jsOr (some f.purity) "24K" else "" }

/-! ### The update and delete dialogs -/

/-- What a run of `handleUpdate`/`handleDelete` does at the HTTP boundary. -/
inductive Outcome where
  | cancelled
  | error (msg : String)
  | request (index : Nat) (body : PriceBody)
deriving DecidableEq

/-- The tail of `handleUpdate` from the price prompt on: `null` cancels, a price that
is not finite or not positive after `Number(...)` sets the error message, otherwise
`updatePrice(block.index, {...})` is called. -/
def priceStep (b : ChainBlock) (newDate newUnit : String) (newPurity : Option String)
    (priceIn : Option String) : Outcome :=
  match priceIn with
  | none => Outcome.cancelled
  | some priceRaw =>
    match jsNumber priceRaw with
    | none => Outcome.error "Price must be a positive number"
    | some q =>
      if q ≤ 0 then Outcome.error "Price must be a positive number"
      else
        Outcome.request b.index
          { date := newDate
            metal := b.data.metal
            purity := if b.data.metal = some "gold" then newPurity else none
            unit := newUnit
            price := some q }

/-- `handleUpdate` of App.jsx.  The four `window.prompt` results are passed in as
`Option String` (`none` = the user dismissed that dialog); the purity prompt is
only consulted when the block's metal is gold.  The returned `Outcome` is the
HTTP-boundary effect of the run. -/
def handleUpdate (b : ChainBlock) (dateIn unitIn purityIn priceIn : Option String) :
    Outcome :=
  match dateIn with
  | none => Outcome.cancelled
  | some newDate =>
    match unitIn with
    | none => Outcome.cancelled
    | some unitRaw =>
      let newUnit := jsLower (jsTrim unitRaw)
      if UNITS.contains newUnit then
        if b.data.metal = some "gold" then
          match purityIn with
          | none => Outcome.cancelled
          | some purityRaw =>
            let newPurity := jsUpper (jsTrim purityRaw)
            if GOLD_PURITY.contains newPurity then
              priceStep b newDate newUnit (some newPurity) priceIn
            else Outcome.error "Gold purity must be 18K, 22K, or 24K"
        else
          priceStep b newDate newUnit (jsOrNull b.data.purity) priceIn
      else Outcome.error "Unit must be 1g, 10g, or 1kg"

/-- `handleDelete` of App.jsx: `window.confirm`, and on a negative answer return
before any request; otherwise `deletePrice(block.index)`. -/
def handleDelete (b : ChainBlock) (confirmed : Bool) : Outcome :=
  if confirmed then Outcome.request b.index
    { date := "", metal := none, purity := none, unit := "", price := none }
  else Outcome.cancelled

/-! ### The API client (api.js) -/

/-- What each api.js function does with a settled `fetch`: `ok` is `res.ok`,
`detail` is the `detail` field of the parsed error body (absent when the body has
none), and `json` is the parsed body returned on success. -/
structure HttpResponse (α : Type) where
  ok : Bool
  detail : Option String
  json : α
deriving DecidableEq

/-- Result of an api.js call: the value of the resolved promise, or the message of
the thrown `Error`. -/
inductive ApiResult (α : Type) where
  | ok (v : α)
  | thrown (msg : String)
deriving DecidableEq

/-- `error.detail || fallback`. -/
def detailOr {α : Type} (r : HttpResponse α) (fallback : String) : String :=
  match r.detail with
  | some d => if d = "" then fallback else d
  | none => fallback

/-- `getChain()`: non-ok throws the fixed message without reading the body. -/
def getChain {α : Type} (r : HttpResponse α) : ApiResult α :=
  if r.ok then ApiResult.ok r.json else ApiResult.thrown "Failed to fetch chain"

/-- `addPrice(payload)`. -/
def addPrice {α : Type} (payload : PriceBody) (r : HttpResponse α) : ApiResult α :=
  if r.ok then ApiResult.ok r.json else ApiResult.thrown (detailOr r "Failed to add price")

/-- `updatePrice(blockIndex, payload)`. -/
def updatePrice {α : Type} (blockIndex : Nat) (payload : PriceBody) (r : HttpResponse α) :
    ApiResult α :=
  if r.ok then ApiResult.ok r.json else ApiResult.thrown (detailOr r "Failed to update price")

/-- `deletePrice(blockIndex)`. -/
def deletePrice {α : Type} (blockIndex : Nat) (r : HttpResponse α) : ApiResult α :=
  if r.ok then ApiResult.ok r.json else ApiResult.thrown (detailOr r "Failed to delete price")

/-- Arguments of `predict({ daysAhead = 1, metal = 'silver', purity = null })`;
`none` stands for an omitted argument or an explicit `null`. -/
structure PredictArgs where
  daysAhead : Option Nat
  metal : Option String
  purity : Option String
deriving DecidableEq

/-- The query parameters `predict` builds, in insertion order: `URLSearchParams`
with `days_ahead` and `metal` always, then `purity` exactly when the purity
argument is truthy (`if (purity) params.set('purity', purity)`). -/
def predictParams (a : PredictArgs) : List (String × String) :=
  let base := [("days_ahead", toString (a.daysAhead.getD 1)), ("metal", a.metal.getD "silver")]
  if strTruthy a.purity then base ++ [("purity", a.purity.getD "")] else base

/-- `predict(...)`: the fetch outcome handling, as for the other endpoints. -/
def predictFetch {α : Type} (a : PredictArgs) (r : HttpResponse α) : ApiResult α :=
  if r.ok then ApiResult.ok r.json else ApiResult.thrown (detailOr r "Failed to predict")

/-! ### The prediction filter and card -/

/-- The `predictFilter` state object of App.jsx. -/
structure PredictFilter where
  metal : String
  purity : String
deriving DecidableEq

/-- `predictionPayload` (App.jsx): `daysAhead: 1`, the filter's metal, and
`purity: metal === 'gold' ? filter.purity : null`. -/
def predictionPayload (f : PredictFilter) : PredictArgs :=
  { daysAhead := some 1
    metal := some f.metal
    purity := if f.metal = "gold" then some f.purity else none }

/-- The metal select's onChange in the prediction filter:
`{ ...p, metal: v, purity: v === 'gold' ? p.purity || '24K' : '' }`. -/
def filterMetalChange (f : PredictFilter) (v : String) : PredictFilter :=
  { f with metal := v, purity := if v = "gold" then jsOr (some f.purity) "24K" else "" }

/-- A forecast response as the prediction card reads it. -/
structure Forecast where
  metal : String
  purity : Option String
  can_predict : Bool
  predicted_price_inr_1g : Option ℚ
  predicted_price_inr_10g : Option ℚ
  predicted_price_inr_1kg : Option ℚ
  currency : Option String
  message : Option String
deriving DecidableEq

/-- One visible fragment of the prediction card. -/
inductive CardItem where
  | seriesMetal (s : String)
  | seriesPurity (s : String)
  | estimate (unitLabel : String) (value : Option ℚ) (currency : String)
  | note (s : String)
deriving DecidableEq

/-- The prediction card App.jsx renders for a non-null forecast:
`Series: {metal.toUpperCase()}` then `{purity ? <strong>{purity}</strong> : null}`;
if `can_predict`, the three `Next day estimate` lines each showing the price field
and `{prediction.currency}`, otherwise the single `{prediction.message}` line.
React shows an absent field as empty text. -/
def predictionCard (p : Forecast) : List CardItem :=
  [CardItem.seriesMetal (jsUpper p.metal)] ++
    (if strTruthy p.purity then [CardItem.seriesPurity (p.purity.getD "")] else []) ++
    (if p.can_predict then
      [CardItem.estimate "1g" p.predicted_price_inr_1g (p.currency.getD ""),
       CardItem.estimate "10g" p.predicted_price_inr_10g (p.currency.getD ""),
       CardItem.estimate "1kg" p.predicted_price_inr_1kg (p.currency.getD "")]
     else [CardItem.note (p.message.getD "")])

/-! ### The ledger engine, modelled from the spec

The ledger engine (Hasher, Block, Ledger with add/update/delete and the validity
check) lives in the repository's backend, which is not among the source files; the
definitions below are modelled from the specification (§3, §4.1–§4.6, §9) and are
parametric in the Hasher, which §4.1 only constrains behaviourally. -/

/-- Modelled from the spec (§3): a validated price payload. -/
structure PricePoint where
  date : String
  metal : String
  purity : Option String
  unit : String
  price : ℚ
deriving DecidableEq

/-- Modelled from the spec (§4.1): a Hasher is a deterministic digest of the block
fields `(index, timestamp, payload, previous_hash, seal)`.  The development is
parametric in it. -/
abbrev HashFn : Type :=
  Nat → Nat → Option PricePoint → String → Nat → String

/-- Modelled from the spec (§3): a sealed block; the seal field is called `nonce`, the
name the spec itself glosses it with ("seal (nonce)"). -/
structure Block where
  index : Nat
  timestamp : Nat
  payload : Option PricePoint
  previous_hash : String
  nonce : Nat
  hash : String
deriving DecidableEq

/-- `pfx` is a leading segment of `s` (the difficulty rule on hashes). -/
def strStarts (pfx s : String) : Bool :=
  List.isPrefixOf pfx.toList s.toList

/-- Modelled from the spec (§4.2, §9): bounded proof-of-work search — try seals
`start, start+1, ...` until the condition holds, giving up (`none`) after `fuel`
attempts. -/
def sealSearch (good : Nat → Bool) : Nat → Nat → Option Nat
  | _, 0 => none
  | s, fuel + 1 => if good s then some s else sealSearch good (s + 1) fuel

/-- Modelled from the spec (§4.2): fix all fields but `seal` and `hash`, search seals
from 0 within `cap` attempts for a digest satisfying the difficulty rule, and set
`hash` to that digest. -/
def mineBlock (H : HashFn) (pfx : String) (cap : Nat) (index timestamp : Nat)
    (payload : Option PricePoint) (prev : String) : Option Block :=
  match sealSearch (fun s => strStarts pfx (H index timestamp payload prev s)) 0 cap with
  | none => none
  | some s =>
    some { index := index, timestamp := timestamp, payload := payload,
           previous_hash := prev, nonce := s, hash := H index timestamp payload prev s }

/-- Modelled from the spec (§3): the fixed `previous_hash` constant of the genesis
block. -/
def GENESIS_PREV : String := "0"

/-- Modelled from the spec (§3): the ledger, an ordered block list with the genesis
block first. -/
structure Ledger where
  blocks : List Block
deriving DecidableEq

/-- Modelled from the spec (§3, §5): the ledger created at process start — a mined
genesis block with empty payload at index 0. -/
def initLedger (H : HashFn) (pfx : String) (cap : Nat) : Option Ledger :=
  (mineBlock H pfx cap 0 0 none GENESIS_PREV).map (fun g => ⟨[g]⟩)

/-- Modelled from the spec (§4.3): payload validation — the date parses as a
calendar date, the metal and unit are in their enumerations, purity is present and
one of the three grades exactly when the metal is gold, and the price is positive
(a `ℚ` is always finite). -/
def validPayload (p : PricePoint) : Bool :=
  parsesAsCalendarDate p.date && METALS.contains p.metal &&
    (match p.purity with
     | some g => decide (p.metal = "gold") && GOLD_PURITY.contains g
     | none => decide (p.metal ≠ "gold")) &&
    UNITS.contains p.unit && decide (0 < p.price)

/-- Modelled from the spec (§4.3): append — validate, mine a block with
`index = length`, `previous_hash` the tail block's hash, and append it.  The
creation instant is passed in as `ts`. -/
def addBlock (H : HashFn) (pfx : String) (cap : Nat) (L : Ledger) (ts : Nat)
    (p : PricePoint) : Option Ledger :=
  if validPayload p then
    match L.blocks.getLast? with
    | none => none
    | some tl =>
      (mineBlock H pfx cap L.blocks.length ts (some p) tl.hash).map
        (fun b => ⟨L.blocks ++ [b]⟩)
  else none

/-- Modelled from the spec (§4.4–§4.5): re-seal a suffix in ascending order with
contiguous indices from `i`, each block re-linked to the freshly sealed
predecessor's hash; timestamps and payloads are kept.  All-or-nothing: any
exhausted seal search fails the whole pass. -/
def resealFrom (H : HashFn) (pfx : String) (cap : Nat) :
    Nat → String → List Block → Option (List Block)
  | _, _, [] => some []
  | i, prev, b :: rest =>
    match mineBlock H pfx cap i b.timestamp b.payload prev with
    | none => none
    | some b' =>
      match resealFrom H pfx cap (i + 1) b'.hash rest with
      | none => none
      | some rest' => some (b' :: rest')

/-- Modelled from the spec (§4.4): update — the index must name an existing
non-genesis block and the replacement payload must validate; then the payload is
replaced and the whole suffix from that index is re-sealed. -/
def updateBlock (H : HashFn) (pfx : String) (cap : Nat) (L : Ledger) (i : Nat)
    (p : PricePoint) : Option Ledger :=
  if i = 0 ∨ L.blocks.length ≤ i then none
  else if validPayload p then
    match (L.blocks.take i).getLast? with
    | none => none
    | some pred =>
      match L.blocks.drop i with
      | [] => none
      | tgt :: rest =>
        (resealFrom H pfx cap i pred.hash ({ tgt with payload := some p } :: rest)).map
          (fun out => ⟨L.blocks.take i ++ out⟩)
  else none

/-- Modelled from the spec (§4.5): delete — remove the block at an existing
non-genesis index, shift the followers' indices down by one and re-seal them from
the removed position. -/
def deleteBlock (H : HashFn) (pfx : String) (cap : Nat) (L : Ledger) (i : Nat) :
    Option Ledger :=
  if i = 0 ∨ L.blocks.length ≤ i then none
  else
    match (L.blocks.take i).getLast? with
    | none => none
    | some pred =>
      (resealFrom H pfx cap i pred.hash (L.blocks.drop (i + 1))).map
        (fun out => ⟨L.blocks.take i ++ out⟩)

/-- Modelled from the spec (§4.6): the walk from index 1 — given the predecessor's
hash, every block's stored hash must equal the freshly recomputed digest over its
current fields, satisfy the difficulty rule, and link to the predecessor. -/
def chainOkFrom (H : HashFn) (pfx : String) : String → List Block → Bool
  | _, [] => true
  | prev, b :: rest =>
    (b.hash == H b.index b.timestamp b.payload b.previous_hash b.nonce) &&
      strStarts pfx b.hash && (b.previous_hash == prev) &&
      chainOkFrom H pfx b.hash rest

/-- Modelled from the spec (§4.6): `is_valid` — walk the chain from index 1 to the
end. -/
def isValid (H : HashFn) (pfx : String) (L : Ledger) : Bool :=
  match L.blocks with
  | [] => true
  | g :: rest => chainOkFrom H pfx g.hash rest

/-- One mutation request against the ledger. -/
inductive LedgerOp where
  | add (ts : Nat) (p : PricePoint)
  | update (i : Nat) (p : PricePoint)
  | delete (i : Nat)
deriving DecidableEq

/-- Dispatch one mutation. -/
def applyOp (H : HashFn) (pfx : String) (cap : Nat) (L : Ledger) :
    LedgerOp → Option Ledger
  | LedgerOp.add ts p => addBlock H pfx cap L ts p
  | LedgerOp.update i p => updateBlock H pfx cap L i p
  | LedgerOp.delete i => deleteBlock H pfx cap L i

/-- Run a finite sequence of mutations, failing as soon as one fails. -/
def applyOps (H : HashFn) (pfx : String) (cap : Nat) :
    Ledger → List LedgerOp → Option Ledger
  | L, [] => some L
  | L, op :: ops =>
    match applyOp H pfx cap L op with
    | none => none
    | some L' => applyOps H pfx cap L' ops

/-- The hash of the last block of `xs`, or `ph` when `xs` is empty: the value the
next block's `previous_hash` must equal. -/
def lastHash (ph : String) : List Block → String
  | [] => ph
  | b :: xs => lastHash b.hash xs

/-! ### Claim C1: the blockchain table -/

/-- A chain-response block whose top-level fields (the spec's §6 block shape) and
nested `data` object disagree on the date. -/
def clashBlock : ChainBlock :=
  { index := 1
    date := some "2020-01-01"
    metal := some "silver"
    purity := none
    unit := some "1g"
    price := some 5
    data := { date := some "2099-12-31", metal := some "silver", purity := none,
              unit := some "1g", price := some 5 }
    hash := "00ab" }

/-- A chain-response block shaped exactly as the spec's §6 block shape
`{ index, date?, metal?, purity?, unit?, price?, hash }`: its price sits in the
top-level fields and its `data` object is empty. -/
def flatOnlyBlock : ChainBlock :=
  { index := 1, date := some "2020-01-01", metal := some "silver", purity := none,
    unit := some "1g", price := some 5,
    data := { date := none, metal := none, purity := none, unit := none, price := none },
    hash := "00cd" }

/-- C1, counterexample.  The claim says each rendered row's fields are read from the
block object per the shape `{ index, date?, metal?, purity?, unit?, price?, hash }`
and that the table shows exactly the blocks whose payload has a price.  The table
is in fact driven by the nested `data` object: on `clashBlock` the rendered date is
`data.date`, not the block's top-level `date`; and `flatOnlyBlock`, which carries
its price only in those top-level fields, is not rendered at all. -/
theorem c1_counterexample :
    (renderedRows [clashBlock]).map Row.date = ["2099-12-31"] ∧
      clashBlock.date = some "2020-01-01" ∧
      ("2099-12-31" : String) ≠ "2020-01-01" ∧
      renderedRows [flatOnlyBlock] = [] ∧
      flatOnlyBlock.price = some 5 := by
  exact ⟨rfl, rfl, by decide, rfl, rfl⟩

/-- C1, as amended: the blockchain table shows exactly the blocks whose `data`
payload has a (truthy) price — the payload-less genesis block is filtered out —
and each rendered row's date, metal, purity, unit, price and hash are read from the
block's nested `data` object and `hash` field. -/
theorem c1_table_rows (blocks : List ChainBlock) :
    (∀ r, r ∈ renderedRows blocks →
      ∃ b, b ∈ blocks ∧ numTruthy b.data.price = true ∧ r = rowOf b) ∧
    (∀ b, b ∈ blocks → numTruthy b.data.price = true → rowOf b ∈ renderedRows blocks) ∧
    (∀ b : ChainBlock,
      (rowOf b).idx = b.index ∧
      (rowOf b).date = b.data.date.getD "" ∧
      (rowOf b).metal = jsUpper (jsOr b.data.metal "") ∧
      (rowOf b).purity = jsOr b.data.purity "-" ∧
      (rowOf b).unit = b.data.unit.getD "" ∧
      (rowOf b).price = b.data.price ∧
      (rowOf b).hashText = String.mk (b.hash.toList.take 16) ++ "...") := by
  refine ⟨?_, ?_, ?_⟩
  · intro r hr
    simp only [renderedRows] at hr
    rcases List.mem_map.mp hr with ⟨b, hb, rfl⟩
    rcases List.mem_filter.mp hb with ⟨hbm, hp⟩
    exact ⟨b, hbm, hp, rfl⟩
  · intro b hb hp
    simp only [renderedRows]
    exact List.mem_map_of_mem rowOf (List.mem_filter.mpr ⟨hb, hp⟩)
  · intro b
    exact ⟨rfl, rfl, rfl, rfl, rfl, rfl, rfl⟩

/-- C1 witness: the amended theorem applied to a concrete one-block response. -/
theorem c1_table_rows_witness :
    rowOf clashBlock ∈ renderedRows [clashBlock] :=
  (c1_table_rows [clashBlock]).2.1 clashBlock (by simp) (by decide)

/-! ### Claim C2: the POST /prices body invariant -/

/-- C2: whenever the add form can fire its submit event (the browser's constraint
validation of the `required` controls passes), the POST /prices body has a non-null,
non-empty purity exactly when the selected metal is gold, and a null purity for
every other metal. -/
theorem c2_submit_purity_iff_gold (f : AddForm) (h : canSubmit f = true) :
    (strTruthy (submitBody f).purity = true ↔ f.metal = "gold") ∧
    (f.metal ≠ "gold" → (submitBody f).purity = none) := by
  have h3 : f.metal ≠ "gold" ∨ f.purity ≠ "" := by
    simp only [canSubmit, Bool.and_eq_true, Bool.or_eq_true, decide_eq_true_eq] at h
    exact h.2
  refine ⟨⟨?_, ?_⟩, ?_⟩
  · intro ht
    by_contra hm
    simp [submitBody, hm, strTruthy] at ht
  · intro hm
    rcases h3 with h3 | h3
    · exact absurd hm h3
    · simp [submitBody, hm, strTruthy, h3]
  · intro hm
    simp [submitBody, hm]

/-- A concrete add-form state with metal gold. -/
def goldForm : AddForm :=
  { date := "2026-02-21", metal := "gold", purity := "24K", unit := "10g", price := "64200" }

/-- A concrete add-form state with metal silver. -/
def silverForm : AddForm :=
  { date := "2026-02-21", metal := "silver", purity := "", unit := "1g", price := "92.5" }

/-- C2 witness: the theorem applied to `goldForm` and `silverForm`. -/
theorem c2_submit_purity_iff_gold_witness :
    strTruthy (submitBody goldForm).purity = true ∧ (submitBody silverForm).purity = none :=
  ⟨(c2_submit_purity_iff_gold goldForm (by decide)).1.mpr (by decide),
   (c2_submit_purity_iff_gold silverForm (by decide)).2 (by decide)⟩

/-! ### Shared facts about the update dialog -/

/-- The price string check `!Number.isFinite(Number(s)) || Number(s) <= 0`. -/
def badPrice (s : String) : Bool :=
  match jsNumber s with
  | none => true
  | some q => decide (q ≤ 0)

/-- Every grade in `GOLD_PURITY` is a non-empty string. -/
theorem gold_purity_ne_empty : ∀ g ∈ GOLD_PURITY, g ≠ "" := by decide

/-- Contents of any request issued by `priceStep`. -/
theorem priceStep_inv (b : ChainBlock) (nd nu : String) (np : Option String)
    (pin : Option String) (i : Nat) (body : PriceBody)
    (h : priceStep b nd nu np pin = Outcome.request i body) :
    i = b.index ∧ body.date = nd ∧ body.metal = b.data.metal ∧ body.unit = nu ∧
      body.purity = (if b.data.metal = some "gold" then np else none) ∧
      ∃ q, body.price = some q ∧ 0 < q := by
  cases pin with
  | none => simp [priceStep] at h
  | some pr =>
    simp only [priceStep] at h
    cases hq : jsNumber pr with
    | none => rw [hq] at h; simp at h
    | some q =>
      rw [hq] at h
      by_cases hle : q ≤ 0
      · simp [hle] at h
      · simp only [if_neg hle, Outcome.request.injEq] at h
        obtain ⟨rfl, rfl⟩ := h
        exact ⟨rfl, rfl, rfl, rfl, rfl, q, rfl, lt_of_not_le hle⟩

/-- `priceStep` on a cancelled price prompt sends nothing. -/
theorem priceStep_none (b : ChainBlock) (nd nu : String) (np : Option String) :
    priceStep b nd nu np none = Outcome.cancelled := rfl

/-- `priceStep` on a non-finite or non-positive price shows the price error. -/
theorem priceStep_bad (b : ChainBlock) (nd nu : String) (np : Option String)
    (pr : String) (h : badPrice pr = true) :
    priceStep b nd nu np (some pr) = Outcome.error "Price must be a positive number" := by
  simp only [badPrice] at h
  simp only [priceStep]
  cases hq : jsNumber pr with
  | none => rfl
  | some q =>
    rw [hq] at h
    simp only [decide_eq_true_eq] at h
    simp [h]

/-- Any request `handleUpdate` issues went through the unit check (and, on a gold
block, the purity check) and came out of `priceStep`. -/
theorem handleUpdate_request_shape (b : ChainBlock)
    (dateIn unitIn purityIn priceIn : Option String) (i : Nat) (body : PriceBody)
    (h : handleUpdate b dateIn unitIn purityIn priceIn = Outcome.request i body) :
    ∃ d u np, dateIn = some d ∧ unitIn = some u ∧
      jsLower (jsTrim u) ∈ UNITS ∧
      (b.data.metal = some "gold" →
        ∃ g, purityIn = some g ∧ np = some (jsUpper (jsTrim g)) ∧
          jsUpper (jsTrim g) ∈ GOLD_PURITY) ∧
      (b.data.metal ≠ some "gold" → np = jsOrNull b.data.purity) ∧
      priceStep b d (jsLower (jsTrim u)) np priceIn = Outcome.request i body := by
  cases dateIn with
  | none => simp [handleUpdate] at h
  | some d =>
    cases unitIn with
    | none => simp [handleUpdate] at h
    | some u =>
      simp only [handleUpdate] at h
      by_cases hU : jsLower (jsTrim u) ∈ UNITS
      · by_cases hg : b.data.metal = some "gold"
        · cases purityIn with
          | none => simp [hU, hg] at h
          | some g =>
            by_cases hG : jsUpper (jsTrim g) ∈ GOLD_PURITY
            · refine ⟨d, u, some (jsUpper (jsTrim g)), rfl, rfl, hU,
                fun _ => ⟨g, rfl, rfl, hG⟩, fun hng => absurd hg hng, ?_⟩
              simpa [hU, hg, hG] using h
            · simp [hU, hg, hG] at h
        · refine ⟨d, u, jsOrNull b.data.purity, rfl, rfl, hU,
            fun hgg => absurd hgg hg, fun _ => rfl, ?_⟩
          simpa [hU, hg] using h
      · simp [hU] at h

/-! ### Claim C3: validation in the update dialog -/

/-- A chain block holding a silver price, as passed to `handleUpdate`. -/
def silverChainBlock : ChainBlock :=
  { index := 1, date := none, metal := none, purity := none, unit := none, price := none,
    data := { date := some "2026-01-01", metal := some "silver", purity := none,
              unit := some "1g", price := some 92 },
    hash := "00aa" }

/-- C3, counterexample.  The claim says the replacement PricePoint satisfies the same
validation as add — in particular that its date parses as a calendar date — and that
a failing entry issues no request.  The dialog never validates the date: entering
`"not-a-date"` (with a valid unit and price) issues the PUT request carrying that
date unchanged. -/
theorem c3_counterexample :
    handleUpdate silverChainBlock (some "not-a-date") (some "1g") none (some "5") =
      Outcome.request 1
        { date := "not-a-date", metal := some "silver", purity := none,
          unit := "1g", price := some 5 } ∧
      parsesAsCalendarDate "not-a-date" = false := by
  exact ⟨by decide, by decide⟩

/-- C3, as amended: the dialog validates unit, purity and price but not the date.
Every request it issues has a unit in {1g, 10g, 1kg}, a purity that is present iff
the block's metal is gold and then is one of {18K, 22K, 24K}, and a finite price
 > 0; a failing unit, purity or price entry issues no request and shows the matching
error message.  The date is sent as entered, without client-side parsing. -/
theorem c3_update_validation (b : ChainBlock)
    (dateIn unitIn purityIn priceIn : Option String) :
    (∀ i body, handleUpdate b dateIn unitIn purityIn priceIn = Outcome.request i body →
      body.unit ∈ UNITS ∧
      (strTruthy body.purity = true ↔ b.data.metal = some "gold") ∧
      (∀ g, body.purity = some g → g ∈ GOLD_PURITY) ∧
      (∃ q, body.price = some q ∧ 0 < q) ∧
      (∃ d, dateIn = some d ∧ body.date = d)) ∧
    (∀ d u, dateIn = some d → unitIn = some u →
      jsLower (jsTrim u) ∉ UNITS →
      handleUpdate b dateIn unitIn purityIn priceIn =
        Outcome.error "Unit must be 1g, 10g, or 1kg") ∧
    (∀ d u g, dateIn = some d → unitIn = some u →
      jsLower (jsTrim u) ∈ UNITS →
      b.data.metal = some "gold" → purityIn = some g →
      jsUpper (jsTrim g) ∉ GOLD_PURITY →
      handleUpdate b dateIn unitIn purityIn priceIn =
        Outcome.error "Gold purity must be 18K, 22K, or 24K") ∧
    (∀ d u pr, dateIn = some d → unitIn = some u →
      jsLower (jsTrim u) ∈ UNITS →
      (b.data.metal = some "gold" →
        ∃ g, purityIn = some g ∧ jsUpper (jsTrim g) ∈ GOLD_PURITY) →
      priceIn = some pr → badPrice pr = true →
      handleUpdate b dateIn unitIn purityIn priceIn =
        Outcome.error "Price must be a positive number") := by
  refine ⟨?_, ?_, ?_, ?_⟩
  · intro i body h
    obtain ⟨d, u, np, hd, hu, hU, hgold, hnotgold, hps⟩ :=
      handleUpdate_request_shape b dateIn unitIn purityIn priceIn i body h
    obtain ⟨-, hdate, hmetal, hunit, hpurity, hq⟩ :=
      priceStep_inv b d (jsLower (jsTrim u)) np priceIn i body hps
    refine ⟨?_, ?_, ?_, hq, d, hd, hdate⟩
    · rw [hunit]; exact hU
    · constructor
      · intro ht
        by_contra hg
        rw [hpurity, if_neg hg] at ht
        simp [strTruthy] at ht
      · intro hg
        obtain ⟨g, -, hnp, hG⟩ := hgold hg
        rw [hpurity, if_pos hg, hnp]
        simpa [strTruthy] using gold_purity_ne_empty (jsUpper (jsTrim g)) hG
    · intro g hgp
      by_cases hg : b.data.metal = some "gold"
      · obtain ⟨g', -, hnp, hG⟩ := hgold hg
        rw [hpurity, if_pos hg, hnp] at hgp
        injection hgp with hgp
        exact hgp ▸ hG
      · rw [hpurity, if_neg hg] at hgp
        exact absurd hgp (by simp)
  · intro d u hd hu hUf
    subst hd; subst hu
    simp [handleUpdate, hUf]
  · intro d u g hd hu hU hg hp hGf
    subst hd; subst hu; subst hp
    simp [handleUpdate, hU, hg, hGf]
  · intro d u pr hd hu hU hpur hp hbad
    subst hd; subst hu; subst hp
    by_cases hg : b.data.metal = some "gold"
    · obtain ⟨g, hpin, hG⟩ := hpur hg
      subst hpin
      have hbd := priceStep_bad b d (jsLower (jsTrim u)) (some (jsUpper (jsTrim g))) pr hbad
      simp [handleUpdate, hU, hg, hG, hbd]
    · have hbd := priceStep_bad b d (jsLower (jsTrim u)) (jsOrNull b.data.purity) pr hbad
      simp [handleUpdate, hU, hg, hbd]

/-- A chain block holding a gold price, as passed to `handleUpdate`. -/
def goldChainBlock : ChainBlock :=
  { index := 2, date := none, metal := none, purity := none, unit := none, price := none,
    data := { date := some "2026-01-05", metal := some "gold", purity := some "24K",
              unit := some "10g", price := some 64200 },
    hash := "00bb" }

/-- The body a concrete successful run of the update dialog sends. -/
def goldUpdateBody : PriceBody :=
  { date := "2026-01-02", metal := some "gold", purity := some "22K", unit := "10g",
    price := some 64500 }

/-- C3 witness: a completed dialog on `goldChainBlock` (unit entered as `" 10G "`,
purity as `"22k"`, price `"64500"`) issues a request whose unit and purity the
theorem certifies. -/
theorem c3_update_validation_witness :
    goldUpdateBody.unit ∈ UNITS ∧ strTruthy goldUpdateBody.purity = true := by
  have h := (c3_update_validation goldChainBlock (some "2026-01-02") (some " 10G ")
      (some "22k") (some "64500")).1 2 goldUpdateBody (by decide)
  exact ⟨h.1, h.2.1.mpr (by decide)⟩

/-! ### Claim C8: updates never change the metal -/

/-- C8: every request `handleUpdate` issues carries the target block's current metal
unchanged (`metal: current.metal`), and targets the block's own index. -/
theorem c8_update_preserves_metal (b : ChainBlock)
    (dateIn unitIn purityIn priceIn : Option String) (i : Nat) (body : PriceBody)
    (h : handleUpdate b dateIn unitIn purityIn priceIn = Outcome.request i body) :
    body.metal = b.data.metal ∧ i = b.index := by
  obtain ⟨d, u, np, -, -, -, -, -, hps⟩ :=
    handleUpdate_request_shape b dateIn unitIn purityIn priceIn i body h
  obtain ⟨hi, -, hmetal, -, -, -⟩ :=
    priceStep_inv b d (jsLower (jsTrim u)) np priceIn i body hps
  exact ⟨hmetal, hi⟩

/-- The body a concrete successful run of the update dialog on the silver block
sends. -/
def silverUpdateBody : PriceBody :=
  { date := "2026-02-02", metal := some "silver", purity := none, unit := "1kg",
    price := some 95 }

/-- C8 witness: the theorem applied to a concrete completed dialog. -/
theorem c8_update_preserves_metal_witness :
    silverUpdateBody.metal = silverChainBlock.data.metal ∧ (1 : Nat) = silverChainBlock.index :=
  c8_update_preserves_metal silverChainBlock (some "2026-02-02") (some "1kg") none (some "95")
    1 silverUpdateBody (by decide)

/-! ### Claim C9: cancelling a dialog sends nothing -/

/-- C9: dismissing any of the update prompts (date, unit, gold purity, price), or
answering the delete confirmation negatively, issues no HTTP request. -/
theorem c9_cancel_no_request (b : ChainBlock)
    (dateIn unitIn purityIn priceIn : Option String)
    (h : dateIn = none ∨ unitIn = none ∨ priceIn = none ∨
      (b.data.metal = some "gold" ∧ purityIn = none)) :
    (∀ i body, handleUpdate b dateIn unitIn purityIn priceIn ≠ Outcome.request i body) ∧
      handleDelete b false = Outcome.cancelled := by
  refine ⟨?_, rfl⟩
  intro i body hc
  obtain ⟨d, u, np, hd, hu, -, hgold, -, hps⟩ :=
    handleUpdate_request_shape b dateIn unitIn purityIn priceIn i body hc
  rcases h with h | h | h | ⟨hg, h⟩
  · rw [h] at hd; exact Option.noConfusion hd
  · rw [h] at hu; exact Option.noConfusion hu
  · subst h; rw [priceStep_none] at hps; exact Outcome.noConfusion hps
  · obtain ⟨g, hpin, -, -⟩ := hgold hg
    rw [h] at hpin; exact Option.noConfusion hpin

/-- C9 witness: the theorem applied to a dismissed price prompt and the negative
delete confirmation. -/
theorem c9_cancel_no_request_witness :
    handleUpdate silverChainBlock (some "2026-01-01") (some "1g") none none ≠
      Outcome.request 1 silverUpdateBody ∧
      handleDelete silverChainBlock false = Outcome.cancelled := by
  have h := c9_cancel_no_request silverChainBlock (some "2026-01-01") (some "1g") none none
    (Or.inr (Or.inr (Or.inl rfl)))
  exact ⟨h.1 1 silverUpdateBody, h.2⟩

/-! ### Claim C4: the predict query string -/

/-- C4: every predict request's query string has `days_ahead` (the argument, default
1) and `metal` (the argument, default silver); it has a `purity` parameter exactly
when a truthy (non-null, non-empty) purity was supplied, and in particular never
when the App's selected metal is not gold. -/
theorem c4_predict_query (a : PredictArgs) (f : PredictFilter) :
    ("days_ahead", toString (a.daysAhead.getD 1)) ∈ predictParams a ∧
    ("metal", a.metal.getD "silver") ∈ predictParams a ∧
    ((∃ p, ("purity", p) ∈ predictParams a) ↔ strTruthy a.purity = true) ∧
    (f.metal ≠ "gold" → ∀ p, ("purity", p) ∉ predictParams (predictionPayload f)) := by
  refine ⟨?_, ?_, ⟨?_, ?_⟩, ?_⟩
  · by_cases ht : strTruthy a.purity = true <;> simp [predictParams, ht]
  · by_cases ht : strTruthy a.purity = true <;> simp [predictParams, ht]
  · rintro ⟨p, hp⟩
    by_cases ht : strTruthy a.purity = true
    · exact ht
    · simp [predictParams, ht] at hp
  · intro ht
    exact ⟨a.purity.getD "", by simp [predictParams, ht]⟩
  · intro hm p
    simp [predictParams, predictionPayload, hm, strTruthy]

/-- A concrete prediction filter with a non-gold metal. -/
def silverFilter : PredictFilter := { metal := "silver", purity := "24K" }

/-- C4 witness: the theorem applied to the silver filter's payload. -/
theorem c4_predict_query_witness :
    ("days_ahead", "1") ∈ predictParams (predictionPayload silverFilter) ∧
    ("metal", "silver") ∈ predictParams (predictionPayload silverFilter) ∧
    ("purity", "24K") ∉ predictParams (predictionPayload silverFilter) := by
  have h := c4_predict_query (predictionPayload silverFilter) silverFilter
  exact ⟨h.1, h.2.1, h.2.2.2 (by decide) "24K"⟩

/-! ### Claim C5: error propagation in the API client -/

/-- C5, counterexample.  The claim says every client function surfaces the response
body's `detail` on a non-ok response; `getChain` never reads the body and always
throws its fixed fallback, even when a `detail` is present. -/
theorem c5_counterexample :
    getChain { ok := false, detail := some "boom", json := (0 : Nat) } =
      ApiResult.thrown "Failed to fetch chain" ∧
    ("Failed to fetch chain" : String) ≠ "boom" :=
  ⟨rfl, by decide⟩

/-- C5, as amended: an ok response makes every client function return the parsed
body, and a non-ok response makes every client function throw — `addPrice`,
`updatePrice`, `deletePrice` and `predict` with the body's `detail` (or their fixed
fallback when it is absent or empty), while `getChain` always throws its fixed
message without reading the body; no failed call resolves normally. -/
theorem c5_api_errors {α : Type} (r : HttpResponse α) (payload : PriceBody)
    (i : Nat) (a : PredictArgs) :
    (r.ok = true →
      getChain r = ApiResult.ok r.json ∧ addPrice payload r = ApiResult.ok r.json ∧
      updatePrice i payload r = ApiResult.ok r.json ∧ deletePrice i r = ApiResult.ok r.json ∧
      predictFetch a r = ApiResult.ok r.json) ∧
    (r.ok = false →
      getChain r = ApiResult.thrown "Failed to fetch chain" ∧
      addPrice payload r = ApiResult.thrown (detailOr r "Failed to add price") ∧
      updatePrice i payload r = ApiResult.thrown (detailOr r "Failed to update price") ∧
      deletePrice i r = ApiResult.thrown (detailOr r "Failed to delete price") ∧
      predictFetch a r = ApiResult.thrown (detailOr r "Failed to predict") ∧
      (∀ v, getChain r ≠ ApiResult.ok v) ∧ (∀ v, addPrice payload r ≠ ApiResult.ok v) ∧
      (∀ v, updatePrice i payload r ≠ ApiResult.ok v) ∧
      (∀ v, deletePrice i r ≠ ApiResult.ok v) ∧
      (∀ v, predictFetch a r ≠ ApiResult.ok v)) := by
  constructor
  · intro hok
    simp [getChain, addPrice, updatePrice, deletePrice, predictFetch, hok]
  · intro hok
    simp [getChain, addPrice, updatePrice, deletePrice, predictFetch, hok]

/-- A concrete failed response carrying a server-side `detail`. -/
def errResponse : HttpResponse Nat :=
  { ok := false, detail := some "Price must be greater than 0", json := 0 }

/-- C5 witness: the theorem applied to `errResponse`. -/
theorem c5_api_errors_witness :
    addPrice goldUpdateBody errResponse = ApiResult.thrown "Price must be greater than 0" := by
  have h := c5_api_errors errResponse goldUpdateBody 1 (predictionPayload silverFilter)
  have h2 := (h.2 rfl).2.1
  simpa [detailOr, errResponse] using h2

/-! ### Claim C6: the prediction card -/

/-- C6: the card always shows the echoed series key — the uppercased metal, and the
purity exactly when a truthy purity is echoed; with `can_predict` true it shows the
three point estimates with the currency and no message line, and with `can_predict`
false it shows the message and no price figure. -/
theorem c6_prediction_card (p : Forecast) :
    CardItem.seriesMetal (jsUpper p.metal) ∈ predictionCard p ∧
    ((∃ s, CardItem.seriesPurity s ∈ predictionCard p) ↔ strTruthy p.purity = true) ∧
    (p.can_predict = true →
      CardItem.estimate "1g" p.predicted_price_inr_1g (p.currency.getD "") ∈ predictionCard p ∧
      CardItem.estimate "10g" p.predicted_price_inr_10g (p.currency.getD "") ∈ predictionCard p ∧
      CardItem.estimate "1kg" p.predicted_price_inr_1kg (p.currency.getD "") ∈ predictionCard p ∧
      (∀ s, CardItem.note s ∉ predictionCard p)) ∧
    (p.can_predict = false →
      CardItem.note (p.message.getD "") ∈ predictionCard p ∧
      (∀ l v c, CardItem.estimate l v c ∉ predictionCard p)) := by
  refine ⟨by simp [predictionCard], ⟨?_, ?_⟩, ?_, ?_⟩
  · rintro ⟨s, hs⟩
    by_cases ht : strTruthy p.purity = true
    · exact ht
    · cases hcp : p.can_predict <;> simp [predictionCard, ht, hcp] at hs
  · intro ht
    exact ⟨p.purity.getD "", by simp [predictionCard, ht]⟩
  · intro hcp
    refine ⟨by simp [predictionCard, hcp], by simp [predictionCard, hcp],
      by simp [predictionCard, hcp], ?_⟩
    intro s
    by_cases ht : strTruthy p.purity = true <;> simp [predictionCard, hcp, ht]
  · intro hcp
    refine ⟨by simp [predictionCard, hcp], ?_⟩
    intro l v c
    by_cases ht : strTruthy p.purity = true <;> simp [predictionCard, hcp, ht]

/-- A concrete predictable forecast response. -/
def demoForecast : Forecast :=
  { metal := "gold", purity := some "24K", can_predict := true,
    predicted_price_inr_1g := some 6450, predicted_price_inr_10g := some 64500,
    predicted_price_inr_1kg := some 6450000, currency := some "INR", message := none }

/-- C6 witness: the theorem applied to `demoForecast`. -/
theorem c6_prediction_card_witness :
    CardItem.seriesMetal (jsUpper demoForecast.metal) ∈ predictionCard demoForecast ∧
    CardItem.estimate "1g" demoForecast.predicted_price_inr_1g
      (demoForecast.currency.getD "") ∈ predictionCard demoForecast := by
  have h := c6_prediction_card demoForecast
  exact ⟨h.1, (h.2.2.1 rfl).1⟩

/-! ### Claim C10: the metal selectors and the purity field -/

/-- C10: in both metal selectors (add form and prediction filter), switching to gold
turns an empty purity into 24K, switching to a non-gold metal clears it, and after
any change the purity is non-empty iff the selected metal is gold. -/
theorem c10_metal_change_purity (f : AddForm) (g : PredictFilter) (v : String) :
    (f.purity = "" → v = "gold" → (formMetalChange f v).purity = "24K") ∧
    (v ≠ "gold" → (formMetalChange f v).purity = "") ∧
    ((formMetalChange f v).purity ≠ "" ↔ v = "gold") ∧
    (formMetalChange f v).metal = v ∧
    (g.purity = "" → v = "gold" → (filterMetalChange g v).purity = "24K") ∧
    (v ≠ "gold" → (filterMetalChange g v).purity = "") ∧
    ((filterMetalChange g v).purity ≠ "" ↔ v = "gold") ∧
    (filterMetalChange g v).metal = v := by
  by_cases hv : v = "gold"
  · by_cases hp : f.purity = "" <;> by_cases hq : g.purity = "" <;>
      simp [formMetalChange, filterMetalChange, jsOr, hv, hp, hq]
  · simp [formMetalChange, filterMetalChange, jsOr, hv]

/-- C10 witness: the theorem applied to switching the add form to gold and the
prediction filter to silver. -/
theorem c10_metal_change_purity_witness :
    (formMetalChange silverForm "gold").purity = "24K" ∧
    (filterMetalChange silverFilter "silver").purity = "" := by
  have h1 := c10_metal_change_purity silverForm silverFilter "gold"
  have h2 := c10_metal_change_purity silverForm silverFilter "silver"
  exact ⟨h1.1 rfl rfl, h2.2.2.2.2.2.1 (by decide)⟩

/-! ### Claim C7: mutations preserve chain validity -/

/-- A found seal satisfies its search condition. -/
theorem sealSearch_good (good : Nat → Bool) :
    ∀ fuel start s, sealSearch good start fuel = some s → good s = true := by
  intro fuel
  induction fuel with
  | zero => intro start s h; exact Option.noConfusion h
  | succ n ih =>
    intro start s h
    simp only [sealSearch] at h
    by_cases hg : good start = true
    · rw [if_pos hg] at h
      injection h with h
      subst h
      exact hg
    · rw [if_neg hg] at h
      exact ih (start + 1) s h

/-- A mined block keeps the requested fields and carries a difficulty-respecting
digest of them as its hash. -/
theorem mineBlock_spec (H : HashFn) (pfx : String) (cap i ts : Nat)
    (pl : Option PricePoint) (prev : String) (b : Block)
    (h : mineBlock H pfx cap i ts pl prev = some b) :
    b.index = i ∧ b.timestamp = ts ∧ b.payload = pl ∧ b.previous_hash = prev ∧
      b.hash = H i ts pl prev b.nonce ∧ strStarts pfx b.hash = true := by
  simp only [mineBlock] at h
  cases hs : sealSearch (fun s => strStarts pfx (H i ts pl prev s)) 0 cap with
  | none => simp [hs] at h
  | some s =>
    simp only [hs, Option.some.injEq] at h
    subst h
    exact ⟨rfl, rfl, rfl, rfl, rfl, sealSearch_good _ cap 0 s hs⟩

/-- `lastHash` steps over a cons. -/
theorem lastHash_cons (ph : String) (b : Block) (xs : List Block) :
    lastHash ph (b :: xs) = lastHash b.hash xs := rfl

/-- `lastHash` agrees with `getLast?` on a non-empty chain. -/
theorem lastHash_getLast (g : Block) (rest : List Block) (tl : Block)
    (h : (g :: rest).getLast? = some tl) : lastHash g.hash rest = tl.hash := by
  induction rest generalizing g with
  | nil =>
    simp only [List.getLast?_singleton, Option.some.injEq] at h
    subst h
    rfl
  | cons c cs ih =>
    rw [List.getLast?_cons_cons] at h
    rw [lastHash_cons]
    exact ih c h

/-- The §4.6 walk splits over an append: the right part is checked against the hash
of the left part's last block. -/
theorem chainOkFrom_append (H : HashFn) (pfx : String) (xs ys : List Block) :
    ∀ ph, chainOkFrom H pfx ph (xs ++ ys) = true ↔
      (chainOkFrom H pfx ph xs = true ∧ chainOkFrom H pfx (lastHash ph xs) ys = true) := by
  induction xs with
  | nil =>
    intro ph
    simp [chainOkFrom, lastHash]
  | cons b rest ih =>
    intro ph
    rw [List.cons_append, lastHash_cons]
    simp only [chainOkFrom, Bool.and_eq_true, ih b.hash]
    tauto

/-- A re-sealed suffix passes the §4.6 walk started at the supplied predecessor
hash. -/
theorem resealFrom_ok (H : HashFn) (pfx : String) (cap : Nat) :
    ∀ (bs : List Block) (i : Nat) (prev : String) (out : List Block),
      resealFrom H pfx cap i prev bs = some out →
      chainOkFrom H pfx prev out = true := by
  intro bs
  induction bs with
  | nil =>
    intro i prev out h
    injection h with h
    subst h
    rfl
  | cons b rest ih =>
    intro i prev out h
    simp only [resealFrom] at h
    cases hm : mineBlock H pfx cap i b.timestamp b.payload prev with
    | none => simp [hm] at h
    | some b' =>
      simp only [hm] at h
      cases hr : resealFrom H pfx cap (i + 1) b'.hash rest with
      | none => simp [hr] at h
      | some rest' =>
        simp only [hr, Option.some.injEq] at h
        subst h
        obtain ⟨hidx, hts, hpl, hprev, hhash, hpfx⟩ :=
          mineBlock_spec H pfx cap i b.timestamp b.payload prev b' hm
        simp only [chainOkFrom, Bool.and_eq_true]
        refine ⟨⟨⟨?_, hpfx⟩, ?_⟩, ih (i + 1) b'.hash rest' hr⟩
        · simp [hidx, hts, hpl, hprev, hhash]
        · simp [hprev]

/-- Replacing the suffix after position `j` of a checked chain with a suffix checked
against the old prefix's last hash keeps the whole chain checked. -/
theorem chainOk_replace (H : HashFn) (pfx : String) (g pred : Block)
    (rest out : List Block) (j : Nat)
    (hv : chainOkFrom H pfx g.hash rest = true)
    (hpred : (g :: rest.take j).getLast? = some pred)
    (hout : chainOkFrom H pfx pred.hash out = true) :
    chainOkFrom H pfx g.hash (rest.take j ++ out) = true := by
  refine (chainOkFrom_append H pfx _ _ g.hash).mpr ⟨?_, ?_⟩
  · have hsplit := (chainOkFrom_append H pfx (rest.take j) (rest.drop j) g.hash).mp
      (by rw [List.take_append_drop]; exact hv)
    exact hsplit.1
  · rw [lastHash_getLast g (rest.take j) pred hpred]
    exact hout

/-- A successful append leaves a valid ledger valid. -/
theorem addBlock_valid (H : HashFn) (pfx : String) (cap : Nat) (L : Ledger) (ts : Nat)
    (p : PricePoint) (L' : Ledger) (hv : isValid H pfx L = true)
    (h : addBlock H pfx cap L ts p = some L') : isValid H pfx L' = true := by
  simp only [addBlock] at h
  split at h
  · cases hlast : L.blocks.getLast? with
    | none => simp [hlast] at h
    | some tl =>
      simp only [hlast] at h
      cases hm : mineBlock H pfx cap L.blocks.length ts (some p) tl.hash with
      | none => simp [hm] at h
      | some b =>
        simp only [hm, Option.map_some', Option.some.injEq] at h
        subst h
        cases hblocks : L.blocks with
        | nil => rw [hblocks] at hlast; exact Option.noConfusion hlast
        | cons g rest =>
          rw [hblocks] at hlast hm
          obtain ⟨hidx, hts, hpl, hprev, hhash, hpfx⟩ := mineBlock_spec _ _ _ _ _ _ _ _ hm
          simp only [isValid, hblocks, List.cons_append]
          refine (chainOkFrom_append H pfx rest [b] g.hash).mpr ⟨?_, ?_⟩
          · simpa [isValid, hblocks] using hv
          · simp only [chainOkFrom, Bool.and_eq_true]
            refine ⟨⟨⟨?_, hpfx⟩, ?_⟩, trivial⟩
            · simp [hhash, hidx, hts, hpl, hprev]
            · rw [hprev, lastHash_getLast g rest tl hlast]
              simp
  · exact Option.noConfusion h

/-- A successful in-place update leaves a valid ledger valid. -/
theorem updateBlock_valid (H : HashFn) (pfx : String) (cap : Nat) (L : Ledger) (i : Nat)
    (p : PricePoint) (L' : Ledger) (hv : isValid H pfx L = true)
    (h : updateBlock H pfx cap L i p = some L') : isValid H pfx L' = true := by
  simp only [updateBlock] at h
  split at h
  · exact Option.noConfusion h
  · next hcond =>
    push_neg at hcond
    obtain ⟨hne, hlt⟩ := hcond
    obtain ⟨j, rfl⟩ := Nat.exists_eq_succ_of_ne_zero hne
    split at h
    · cases hpred : (L.blocks.take (j + 1)).getLast? with
      | none => simp [hpred] at h
      | some pred =>
        simp only [hpred] at h
        cases hdrop : L.blocks.drop (j + 1) with
        | nil => simp [hdrop] at h
        | cons tgt tail =>
          simp only [hdrop] at h
          cases hres : resealFrom H pfx cap (j + 1) pred.hash
              ({ tgt with payload := some p } :: tail) with
          | none => simp [hres] at h
          | some out =>
            simp only [hres, Option.map_some', Option.some.injEq] at h
            subst h
            cases hblocks : L.blocks with
            | nil => rw [hblocks] at hlt; simp at hlt
            | cons g rest =>
              rw [hblocks] at hpred
              simp only [List.take_succ_cons] at hpred
              simp only [isValid, hblocks, List.take_succ_cons]
              exact chainOk_replace H pfx g pred rest out j
                (by simpa [isValid, hblocks] using hv) hpred
                (resealFrom_ok H pfx cap _ _ _ _ hres)
    · exact Option.noConfusion h

/-- A successful delete leaves a valid ledger valid. -/
theorem deleteBlock_valid (H : HashFn) (pfx : String) (cap : Nat) (L : Ledger) (i : Nat)
    (L' : Ledger) (hv : isValid H pfx L = true)
    (h : deleteBlock H pfx cap L i = some L') : isValid H pfx L' = true := by
  simp only [deleteBlock] at h
  split at h
  · exact Option.noConfusion h
  · next hcond =>
    push_neg at hcond
    obtain ⟨hne, hlt⟩ := hcond
    obtain ⟨j, rfl⟩ := Nat.exists_eq_succ_of_ne_zero hne
    cases hpred : (L.blocks.take (j + 1)).getLast? with
    | none => simp [hpred] at h
    | some pred =>
      simp only [hpred] at h
      cases hres : resealFrom H pfx cap (j + 1) pred.hash (L.blocks.drop (j + 1 + 1)) with
      | none => simp [hres] at h
      | some out =>
        simp only [hres, Option.map_some', Option.some.injEq] at h
        subst h
        cases hblocks : L.blocks with
        | nil => rw [hblocks] at hlt; simp at hlt
        | cons g rest =>
          rw [hblocks] at hpred
          simp only [List.take_succ_cons] at hpred
          simp only [isValid, hblocks, List.take_succ_cons]
          exact chainOk_replace H pfx g pred rest out j
            (by simpa [isValid, hblocks] using hv) hpred
            (resealFrom_ok H pfx cap _ _ _ _ hres)

/-- Every successful single mutation preserves validity. -/
theorem applyOp_valid (H : HashFn) (pfx : String) (cap : Nat) (L : Ledger)
    (op : LedgerOp) (L' : Ledger) (hv : isValid H pfx L = true)
    (h : applyOp H pfx cap L op = some L') : isValid H pfx L' = true := by
  cases op with
  | add ts p => exact addBlock_valid H pfx cap L ts p L' hv h
  | update i p => exact updateBlock_valid H pfx cap L i p L' hv h
  | delete i => exact deleteBlock_valid H pfx cap L i L' hv h

/-- Every successful sequence of mutations preserves validity. -/
theorem applyOps_valid (H : HashFn) (pfx : String) (cap : Nat) :
    ∀ (ops : List LedgerOp) (L L' : Ledger), isValid H pfx L = true →
      applyOps H pfx cap L ops = some L' → isValid H pfx L' = true := by
  intro ops
  induction ops with
  | nil =>
    intro L L' hv h
    injection h with h
    subst h
    exact hv
  | cons op rest ih =>
    intro L L' hv h
    simp only [applyOps] at h
    cases hop : applyOp H pfx cap L op with
    | none => simp [hop] at h
    | some M => simp only [hop] at h; exact ih M L' (applyOp_valid H pfx cap L op M hv hop) h

/-- The freshly created genesis-only ledger is valid. -/
theorem initLedger_valid (H : HashFn) (pfx : String) (cap : Nat) (L0 : Ledger)
    (h : initLedger H pfx cap = some L0) : isValid H pfx L0 = true := by
  simp only [initLedger] at h
  cases hm : mineBlock H pfx cap 0 0 none GENESIS_PREV with
  | none => simp [hm] at h
  | some g =>
    simp only [hm, Option.map_some', Option.some.injEq] at h
    subst h
    rfl

/-- C7: starting from the genesis-only ledger, any finite sequence of successful
add/update/delete operations leaves a ledger on which the §4.6 `is_valid` walk
holds: every block's stored hash is the freshly recomputed Hasher output over its
current fields, satisfies the difficulty rule, and links to its predecessor's
hash. -/
theorem c7_ops_preserve_validity (H : HashFn) (pfx : String) (cap : Nat)
    (ops : List LedgerOp) (L0 L : Ledger)
    (h0 : initLedger H pfx cap = some L0)
    (h : applyOps H pfx cap L0 ops = some L) :
    isValid H pfx L = true :=
  applyOps_valid H pfx cap ops L0 L (initLedger_valid H pfx cap L0 h0) h

/-- A degenerate but legitimate Hasher for concrete runs: a constant digest (every
difficulty-0 search then succeeds at nonce 0). -/
def H0 : HashFn := fun _ _ _ _ _ => "h"

/-- A valid silver payload. -/
def demoSilver : PricePoint :=
  { date := "2026-02-21", metal := "silver", purity := none, unit := "1g", price := 92 }

/-- A valid gold payload. -/
def demoGold : PricePoint :=
  { date := "2026-02-22", metal := "gold", purity := some "22K", unit := "10g",
    price := 64200 }

/-- A concrete mutation sequence: two appends, an in-place update, a delete. -/
def demoOps : List LedgerOp :=
  [LedgerOp.add 1 demoSilver, LedgerOp.add 2 demoGold,
   LedgerOp.update 1 demoGold, LedgerOp.delete 2]

/-- The concrete genesis-only ledger under `H0` with an empty difficulty rule. -/
def demoL0 : Ledger := (initLedger H0 "" 1).getD ⟨[]⟩

/-- The concrete ledger after running `demoOps`. -/
def demoLedger : Ledger := (applyOps H0 "" 1 demoL0 demoOps).getD ⟨[]⟩

/-- C7 witness: the theorem applied to the concrete run `demoOps`. -/
theorem c7_ops_preserve_validity_witness : isValid H0 "" demoLedger = true :=
  c7_ops_preserve_validity H0 "" 1 demoOps demoL0 demoLedger rfl rfl

end MetalPrice
